import Mathlib

/-!
# hostess: the command-line shell (`src/main.go`)

A shallow embedding of `wrappedMain`, `main`, `Usage`, `CommandUsage` and
`ExitWithError`, together with the part of Go's standard `flag` package that
`wrappedMain` drives (`FlagSet.Parse` over a flag set holding the single
boolean flag `n`, error handling `flag.ExitOnError`, `Usage` overridden).

A run of Go code is a value of `Run α`: the ordered trace of observable
events (writes to standard output and standard error, calls into the core)
and the way the code ended: it returned a value, it called `os.Exit`, or it
hit a run-time panic at an index or slice expression.  A core operation is
taken from the environment: it returns an error value or ends the process
itself.

Go strings are byte strings; the embedding uses Lean strings (Unicode
scalars).  Every comparison the embedded code makes is against ASCII text
(`-`, `=`, command names), for which both views agree on UTF-8 input.
-/

namespace Hostess

/-! ## Data model -/

/-- A non-nil Go `error`, known by the text its `Error()` method returns. -/
structure GoError where
  msg : String
deriving DecidableEq, Repr

/-- Modelled from the spec: the type `Options` is declared outside
`src/main.go`; the composite literal at main.go:87-89 sets its one field
`Preview`, the spec's preview flag `-n`. -/
structure Options where
  Preview : Bool
deriving DecidableEq, Repr

/-- One call from `wrappedMain` into the core (`Format`, `Add`, ... are
functions of the package declared outside `src/main.go`), with the arguments
in the order of the call expression. -/
inductive CoreCall where
  | Format (options : Options)
  | Add (options : Options) (hostname : String) (ip : String)
  | Remove (options : Options) (hostname : String)
  | Enable (options : Options) (hostname : String)
  | Disable (options : Options) (hostname : String)
  | List (options : Options)
  | Has (options : Options) (hostname : String)
  | Dump (options : Options)
  | Apply (options : Options) (filename : String)
deriving DecidableEq, Repr

/-- The `Options` value a core call received. -/
def CoreCall.options : CoreCall → Options
  | .Format o => o
  | .Add o _ _ => o
  | .Remove o _ => o
  | .Enable o _ => o
  | .Disable o _ => o
  | .List o => o
  | .Has o _ => o
  | .Dump o => o
  | .Apply o _ => o

/-- An observable event of a run. -/
inductive Event where
  | stdout (text : String)
  | stderr (text : String)
  | call (c : CoreCall)
deriving DecidableEq, Repr

/-- The index and slice expressions of `src/main.go` that can panic. -/
inductive PanicSite where
  /-- The index expression `args[0]` (main.go:72, main.go:142). -/
  | argsIndex0
  /-- The slice expression `args[2:]` (main.go:83). -/
  | argsSlice2
  /-- The index expression `os.Args[0]` (main.go:68). -/
  | osArgsIndex0
deriving DecidableEq, Repr

/-- How a piece of Go code ended. -/
inductive Step (α : Type) where
  | ret (a : α)
  | exit (code : Nat)
  | panic (site : PanicSite)
deriving DecidableEq, Repr

/-- A run: the events in order, and how it ended. -/
structure Run (α : Type) where
  trace : List Event
  step : Step α
deriving DecidableEq, Repr

/-- Sequencing: the second part runs only when the first returned. -/
def Run.bind {α β : Type} (r : Run α) (f : α → Run β) : Run β :=
  match r.step with
  | .ret a => ⟨r.trace ++ (f a).trace, (f a).step⟩
  | .exit c => ⟨r.trace, .exit c⟩
  | .panic s => ⟨r.trace, .panic s⟩

instance : Monad Run where
  pure a := ⟨[], .ret a⟩
  bind := Run.bind

/-- Standard output receives `text`. -/
def writeStdout (text : String) : Run Unit := ⟨[.stdout text], .ret ()⟩

/-- The call `os.Stderr.WriteString(text)`. -/
def writeStderr (text : String) : Run Unit := ⟨[.stderr text], .ret ()⟩

/-- The call `os.Exit(code)`: nothing after it runs. -/
def osExit {α : Type} (code : Nat) : Run α := ⟨[], .exit code⟩

/-- A run-time panic at an index or slice expression. -/
def goPanic {α : Type} (site : PanicSite) : Run α := ⟨[], .panic site⟩

/-- The calls into the core among the events of a trace, in order. -/
def calls : List Event → List CoreCall
  | [] => []
  | .call c :: es => c :: calls es
  | _ :: es => calls es

/-- How a call into the core ends: it returns an error value (`none` is the
nil error), or it ends the process itself with an exit status (`os.Exit`
inside the operation; an unrecovered panic there is status 2). -/
inductive CoreEnd where
  | ret (err : Option GoError)
  | exit (code : Nat)
deriving DecidableEq, Repr

/-- The end of a core call as the end of the call expression in
`wrappedMain`. -/
def CoreEnd.step : CoreEnd → Step (Option GoError)
  | .ret err => .ret err
  | .exit code => .exit code

/-- What the embedded code takes from outside `src/main.go`. -/
structure Env where
  /-- The value of `hostess.GetHostsPath()`. -/
  hostsPath : String
  /-- How a core operation ends on the given call. -/
  core : CoreCall → CoreEnd
  /-- The `%q` verb of package `fmt` (`strconv.Quote`). -/
  quote : String → String

/-- A call into the core: the event is recorded; when the operation returns,
its result is the value of the call expression, and when it ends the process
nothing after the call runs. -/
def callCore (env : Env) (c : CoreCall) : Run (Option GoError) :=
  ⟨[.call c], (env.core c).step⟩

/-! ## Constants of `src/main.go` -/

/-- The constant `help` (main.go:14-47). -/
def help : String :=
  "An idempotent tool for managing %s\n" ++
  "\n" ++
  "Commands\n" ++
  "\n" ++
  "    fmt                  Reformat the hosts file\n" ++
  "\n" ++
  "    add <hostname> <ip>  Add or overwrite a hosts entry\n" ++
  "    rm <hostname>        Remote a hosts entry\n" ++
  "    on <hostname>        Enable a hosts entry\n" ++
  "    off <hostname>       Disable a hosts entry\n" ++
  "\n" ++
  "    ls                   List hosts entries\n" ++
  "    has                  Exit 0 if entry present in hosts file, 1 if not\n" ++
  "\n" ++
  "    dump                 Export hosts entries as JSON\n" ++
  "    apply                Import hosts entries from JSON\n" ++
  "\n" ++
  "    All commands that change the hosts file will implicitly reformat it.\n" ++
  "\n" ++
  "Flags\n" ++
  "\n" ++
  "    -n will preview changes but not rewrite your hosts file\n" ++
  "\n" ++
  "Configuration\n" ++
  "\n" ++
  "    HOSTESS_FMT may be set to unix or windows to force that platform's syntax\n" ++
  "    HOSTESS_PATH may be set to point to a file other than the platform default\n" ++
  "\n" ++
  "About\n" ++
  "\n" ++
  "    Copyright 2015-2020 Chris Bednarski <chris@cbednarski.com>; MIT Licensed\n" ++
  "    Portions Copyright the Go authors, licensed under BSD-style license\n" ++
  "    Bugs and updates via https://github.com/cbednarski/hostess\n"

/-- The variable `Version` (main.go:50). -/
def Version : String := "dev"

/-- The variable `ErrInvalidCommand` (main.go:51). -/
def ErrInvalidCommand : GoError := ⟨"invalid command"⟩

/-! ## Package `fmt` and `strconv`, as far as the code uses them -/

/-- The function `fmt.Print` on string operands: each operand is written in its default
format, and a space is added between operands only when neither is a string;
no verb of a would-be format string is interpreted. -/
def fmtPrint (operands : List String) : String := String.join operands

/-- The function `strconv.ParseBool`: `none` is the syntax error. -/
def ParseBool (str : String) : Option Bool :=
  if str = "1" ∨ str = "t" ∨ str = "T" ∨ str = "true" ∨ str = "TRUE" ∨ str = "True" then
    some true
  else if str = "0" ∨ str = "f" ∨ str = "F" ∨ str = "false" ∨ str = "FALSE"
      ∨ str = "False" then
    some false
  else
    none

/-! ## `src/main.go`: `ExitWithError`, `Usage`, `CommandUsage` -/

/-- The function `ExitWithError` (main.go:54-60). -/
def ExitWithError (err : Option GoError) : Run Unit :=
  match err with
  | some e => do
      writeStderr e.msg
      writeStderr "\n"
      osExit 1
  | none => pure ()

/-- The function `Usage` (main.go:62-65). -/
def Usage (env : Env) : Run Unit := do
  writeStdout (fmtPrint [help, env.hostsPath])
  osExit 0

/-- The function `CommandUsage` (main.go:67-69); `osArgs` is the global `os.Args`. -/
def CommandUsage (osArgs : List String) (command : String) : Run GoError :=
  match osArgs with
  | [] => goPanic .osArgsIndex0
  | a0 :: _ => pure ⟨"Usage: " ++ a0 ++ " " ++ command ++ " <hostname>"⟩

/-! ## Package `flag`: a flag set with the one boolean flag `n`

`wrappedMain` builds `flag.NewFlagSet(args[0], flag.ExitOnError)`, defines
the boolean flag `n` (default `false`) and replaces the set's `Usage` by the
program's `Usage`.  The definitions below follow `FlagSet.failf`,
`FlagSet.parseOne`, `FlagSet.Parse`, `FlagSet.Args`, `FlagSet.Arg` and
`FlagSet.Name` of the standard library for such a set.  The text of the
messages is that of Go 1.13 and later; no statement below depends on it
beyond the message for an undefined flag. -/

/-- The state of the flag set `cli`. -/
structure FlagSet where
  /-- The field `f.name`, what `cli.Name()` returns. -/
  name : String
  /-- The boolean behind the pointer `preview`. -/
  n : Bool
  /-- The field `f.args`, what `cli.Args()` returns. -/
  args : List String
deriving DecidableEq, Repr

/-- The call `flag.NewFlagSet(name, flag.ExitOnError)` followed by
`cli.Bool("n", false, "preview")` (main.go:72-73). -/
def NewFlagSet (name : String) : FlagSet := ⟨name, false, []⟩

/-- The call `cli.Arg(i)`: the i-th remaining argument, the empty string when there
is none. -/
def FlagSet.Arg (f : FlagSet) (i : Nat) : String := f.args.getD i ""

/-- The variable `flag.ErrHelp`. -/
def ErrHelp : GoError := ⟨"flag: help requested"⟩

/-- The method `FlagSet.failf`: the message goes to the set's output (standard error)
with a newline, then `f.usage()` runs, which is `Usage` here (main.go:74),
and the error is returned to the caller. -/
def failf (env : Env) (text : String) : Run GoError := do
  writeStderr (text ++ "\n")
  Usage env
  pure ⟨text⟩

/-- The loop of `parseOne` that looks for `=` in `name[1:]`: the text before
the first `=` and, when there is one, the text after it. -/
def cutValue : List Char → List Char × Option (List Char)
  | [] => ([], none)
  | c :: cs =>
    if c = '=' then ([], some cs)
    else (c :: (cutValue cs).1, (cutValue cs).2)

/-- What one call of `parseOne` on a non-empty `f.args` reports. -/
inductive ParseOne where
  /-- Result `(false, nil)`, `f.args` untouched: the head is not a flag. -/
  | stay
  /-- Result `(false, nil)`, `f.args` advanced past the terminator `--`. -/
  | terminator
  /-- Result `(true, nil)`, `f.args` advanced, the flag `n` set to `value`. -/
  | seen (value : Bool)
  /-- Result `(false, err)`. -/
  | failed (err : GoError)
deriving DecidableEq, Repr

/-- The method `FlagSet.parseOne` on the head `s` of `f.args`. -/
def parseOne (env : Env) (s : String) : Run ParseOne :=
  match s.data with
  | '-' :: c1 :: cs =>
    -- len(s) >= 2 and s[0] == '-'
    if c1 = '-' ∧ cs = [] then
      pure .terminator
    else
      -- name := s[numMinuses:]
      let name := if c1 = '-' then cs else c1 :: cs
      match name with
      | [] => do
          let err ← failf env ("bad flag syntax: " ++ s)
          pure (.failed err)
      | n0 :: ns =>
        if n0 = '-' ∨ n0 = '=' then do
          let err ← failf env ("bad flag syntax: " ++ s)
          pure (.failed err)
        else
          let name := String.mk (n0 :: (cutValue ns).1)
          let value := (cutValue ns).2
          if name = "n" then
            -- the one formal flag, a boolean flag
            match value with
            | some v =>
              match ParseBool (String.mk v) with
              | some b => pure (.seen b)
              | none => do
                  let err ← failf env ("invalid boolean value " ++ env.quote (String.mk v)
                    ++ " for -" ++ name ++ ": parse error")
                  pure (.failed err)
            | none => pure (.seen true)
          else if name = "help" ∨ name = "h" then do
            Usage env
            pure (.failed ErrHelp)
          else do
            let err ← failf env ("flag provided but not defined: -" ++ name)
            pure (.failed err)
  | _ => pure .stay

/-- The loop of `FlagSet.Parse` under `flag.ExitOnError`, from the value of
the flag `n` so far and the arguments not yet consumed to the final value
and the remaining arguments. -/
def parseLoop (env : Env) : Bool → List String → Run (Bool × List String)
  | n, [] => pure (n, [])
  | n, s :: rest => do
    let r ← parseOne env s
    match r with
    | .seen b => parseLoop env b rest
    | .stay => pure (n, s :: rest)
    | .terminator => pure (n, rest)
    | .failed err => if err = ErrHelp then osExit 0 else osExit 2

/-- The method `FlagSet.Parse(arguments)` under `flag.ExitOnError`: when it returns,
the error is nil. -/
def FlagSet.Parse (env : Env) (f : FlagSet) (arguments : List String) :
    Run (FlagSet × Option GoError) := do
  let (n, rest) ← parseLoop env f.n arguments
  pure ({ f with n := n, args := rest }, none)

/-! ## `src/main.go`: `wrappedMain` and `main` -/

/-- The index expression `l[0]`. -/
def index0 (site : PanicSite) : List String → Run String
  | [] => goPanic site
  | a :: _ => pure a

/-- The slice expression `l[2:]`. -/
def sliceFrom2 (site : PanicSite) : List String → Run (List String)
  | _ :: _ :: rest => pure rest
  | _ => goPanic site

/-- The switch statement of `wrappedMain` (main.go:91-148), on the command,
the parsed flag set and the options built from it; `osArgs` is the global
`os.Args` and `args` the parameter of `wrappedMain`. -/
def commandSwitch (env : Env) (osArgs : List String) (args : List String)
    (cli : FlagSet) (options : Options) (command : String) : Run (Option GoError) :=
  if command = "-v" ∨ command = "--version" ∨ command = "version" then do
    writeStdout (Version ++ "\n")
    pure none
  else if command = "" ∨ command = "-h" ∨ command = "--help" ∨ command = "help" then do
    Usage env
    pure none
  else if command = "fmt" then
    callCore env (.Format options)
  else if command = "add" then
    if cli.args.length ≠ 2 then
      pure (some ⟨"Usage: " ++ cli.name ++ " add <hostname> <ip>"⟩)
    else
      callCore env (.Add options (cli.Arg 0) (cli.Arg 1))
  else if command = "rm" then
    if cli.Arg 0 = "" then do
      let e ← CommandUsage osArgs command
      pure (some e)
    else
      callCore env (.Remove options (cli.Arg 0))
  else if command = "on" then
    if cli.Arg 0 = "" then do
      let e ← CommandUsage osArgs command
      pure (some e)
    else
      callCore env (.Enable options (cli.Arg 0))
  else if command = "off" then
    if cli.Arg 0 = "" then do
      let e ← CommandUsage osArgs command
      pure (some e)
    else
      callCore env (.Disable options (cli.Arg 0))
  else if command = "ls" then
    callCore env (.List options)
  else if command = "has" then
    if cli.Arg 0 = "" then do
      let e ← CommandUsage osArgs command
      pure (some e)
    else
      callCore env (.Has options (cli.Arg 0))
  else if command = "dump" then
    callCore env (.Dump options)
  else if command = "apply" then
    if cli.Arg 0 = "" then do
      let a0 ← index0 .argsIndex0 args
      pure (some ⟨"Usage: " ++ a0 ++ " apply <filename>"⟩)
    else
      callCore env (.Apply options (cli.Arg 0))
  else
    pure (some ErrInvalidCommand)

/-- The function `wrappedMain` (main.go:71-149); `osArgs` is the global
`os.Args`.  The switch statement is `commandSwitch`. -/
def wrappedMain (env : Env) (osArgs : List String) (args : List String) :
    Run (Option GoError) := do
  let name ← index0 .argsIndex0 args
  let cli := NewFlagSet name
  let command ← (match args with
    | _ :: c :: _ => pure c
    | _ => do
        Usage env
        pure "")
  let arguments ← sliceFrom2 .argsSlice2 args
  let (cli, err) ← cli.Parse env arguments
  match err with
  | some e => pure (some e)
  | none =>
    let options : Options := ⟨cli.n⟩
    commandSwitch env osArgs args cli options command

/-- The function `main` (main.go:151-153): `os.Args` is handed to `wrappedMain`. -/
def main (env : Env) (osArgs : List String) : Run Unit := do
  let err ← wrappedMain env osArgs osArgs
  ExitWithError err

/-- The exit status of the process whose `main` ran as `r`: 0 when `main`
returned, the argument of `os.Exit`, and 2 for an unrecovered panic. -/
def exitStatus (r : Run Unit) : Nat :=
  match r.step with
  | .ret _ => 0
  | .exit code => code
  | .panic _ => 2

/-- An environment for concrete runs: the default Unix path, a core whose
operations all return nil. -/
def demoEnv : Env where
  hostsPath := "/etc/hosts"
  core := fun _ => .ret none
  quote := fun s => "\"" ++ s ++ "\""

/-- Modelled from the spec: the core operation `Has` is declared outside
`src/main.go`.  The spec has `has` communicate presence or absence "via exit
code rather than message", and the help text reads "Exit 0 if entry present
in hosts file, 1 if not": on an absent host `Has` ends the process with
status 1 itself.  In this environment every host is absent, and every other
operation returns nil. -/
def absentHostEnv : Env where
  hostsPath := "/etc/hosts"
  core := fun c =>
    match c with
    | .Has _ _ => .exit 1
    | _ => .ret none
  quote := fun s => "\"" ++ s ++ "\""

/-! ## The words of the specification -/

namespace Spec

/-- A flag token, as the flag syntax reads an argument: at least two
characters, the first of them `-`. -/
def isFlagToken (s : String) : Bool :=
  decide (2 ≤ s.data.length ∧ s.data.head? = some '-')

/-- The flag `-n` in a true form: bare, or with a value that reads as true. -/
def trueForms : List String :=
  ["-n", "--n",
   "-n=1", "-n=t", "-n=T", "-n=true", "-n=TRUE", "-n=True",
   "--n=1", "--n=t", "--n=T", "--n=true", "--n=TRUE", "--n=True"]

/-- The flag `-n` in a false form: with a value that reads as false. -/
def falseForms : List String :=
  ["-n=0", "-n=f", "-n=F", "-n=false", "-n=FALSE", "-n=False",
   "--n=0", "--n=f", "--n=F", "--n=false", "--n=FALSE", "--n=False"]

/-- The leading flag section of the arguments after the command: the flag
tokens before the first non-flag argument and before any `--` terminator. -/
def leadingFlags (arguments : List String) : List String :=
  arguments.takeWhile (fun s => isFlagToken s && s != "--")

/-- The commands that change the hosts file. -/
def mutatingCommands : List String := ["fmt", "add", "rm", "on", "off", "apply"]

/-- The commands `wrappedMain` knows, the empty command included. -/
def knownCommands : List String :=
  ["", "-h", "--help", "help", "-v", "--version", "version",
   "fmt", "add", "rm", "on", "off", "ls", "has", "dump", "apply"]

/-- The command surface: the core call a command and its positional
arguments stand for, when the positionals pass the command's argument check
(two for `add`, a non-empty first one for `rm`, `on`, `off`, `has`, `apply`). -/
def dispatch (options : Options) (command : String) (positionals : List String) :
    Option CoreCall :=
  if command = "fmt" then some (.Format options)
  else if command = "add" then
    match positionals with
    | [h, ip] => some (.Add options h ip)
    | _ => none
  else if command = "ls" then some (.List options)
  else if command = "dump" then some (.Dump options)
  else
    match positionals with
    | [] => none
    | h :: _ =>
      if h = "" then none
      else if command = "rm" then some (.Remove options h)
      else if command = "on" then some (.Enable options h)
      else if command = "off" then some (.Disable options h)
      else if command = "has" then some (.Has options h)
      else if command = "apply" then some (.Apply options h)
      else none

/-- The commands that take one positional argument, each with the core
operation it stands for. -/
def oneArgCommands : List (String × (Options → String → CoreCall)) :=
  [("rm", .Remove), ("on", .Enable), ("off", .Disable), ("has", .Has), ("apply", .Apply)]

/-- The usage error of a one-argument command whose argument is missing or
empty: `Usage: <os.Args[0]> <command> <hostname>` for `rm`, `on`, `off` and
`has`, and `Usage: <args[0]> apply <filename>` for `apply`. -/
def usageError (osArgs0 args0 command : String) : GoError :=
  if command = "apply" then ⟨"Usage: " ++ args0 ++ " apply <filename>"⟩
  else ⟨"Usage: " ++ osArgs0 ++ " " ++ command ++ " <hostname>"⟩

/-- Every core call of the trace was made in preview mode. -/
def previewOnly (trace : List Event) : Prop :=
  ∀ c ∈ calls trace, c.options.Preview = true

/-- The first line of a text. -/
def firstLine (text : String) : String :=
  String.mk (text.data.takeWhile (fun c => c != Char.ofNat 10))

end Spec

/-- The value of the flag `n` after the flag tokens `flags` were read in
order, from the value `n` before: every token sets it anew. -/
def lastWins (n : Bool) (flags : List String) : Bool :=
  flags.foldl (fun _ t => decide (t ∈ Spec.trueForms)) n

/-! ## Lemmas: sequencing -/

theorem pure_run {α : Type} (a : α) : (pure a : Run α) = ⟨[], .ret a⟩ := rfl

theorem bind_run {α β : Type} (r : Run α) (f : α → Run β) : (r >>= f) = Run.bind r f := rfl

theorem bind_ret {α β : Type} (t : List Event) (a : α) (f : α → Run β) :
    Run.bind ⟨t, .ret a⟩ f = ⟨t ++ (f a).trace, (f a).step⟩ := rfl

theorem bind_exit {α β : Type} (t : List Event) (c : Nat) (f : α → Run β) :
    Run.bind ⟨t, .exit c⟩ f = ⟨t, .exit c⟩ := rfl

theorem bind_panic {α β : Type} (t : List Event) (s : PanicSite) (f : α → Run β) :
    Run.bind ⟨t, .panic s⟩ f = ⟨t, .panic s⟩ := rfl

theorem Usage_run (env : Env) :
    Usage env = ⟨[.stdout (fmtPrint [help, env.hostsPath])], .exit 0⟩ := rfl

theorem failf_run (env : Env) (text : String) :
    failf env text
      = ⟨[.stderr (text ++ "\n"), .stdout (fmtPrint [help, env.hostsPath])], .exit 0⟩ := rfl


/-! ## Lemmas: flag parsing -/

theorem parseOne_nonflag (env : Env) (s : String) (h : Spec.isFlagToken s = false) :
    parseOne env s = ⟨[], .ret .stay⟩ := by
  unfold parseOne
  split
  · rename_i c1 cs heq
    simp [Spec.isFlagToken, heq] at h
  · rfl

theorem parseOne_terminator (env : Env) : parseOne env "--" = ⟨[], .ret .terminator⟩ := rfl

theorem cutValue_nil_iff (ns : List Char) :
    (cutValue ns).1 = [] ↔ ns = [] ∨ ∃ v, ns = '=' :: v ∧ (cutValue ns).2 = some v := by
  cases ns with
  | nil => simp [cutValue]
  | cons c cs =>
    by_cases hc : c = '='
    · subst hc; simp [cutValue]
    · simp [cutValue, hc]

theorem cutValue_nil_none (ns : List Char) (h : (cutValue ns).1 = []) (h2 : (cutValue ns).2 = none) :
    ns = [] := by
  rcases (cutValue_nil_iff ns).1 h with h | ⟨v, _, hv⟩
  · exact h
  · rw [hv] at h2; cases h2


theorem data_of_mk_eq (l : List Char) (t : String) (h : String.mk l = t) : l = t.data :=
  congrArg String.data h

theorem ParseBool_true_values (v : List Char) (h : ParseBool (String.mk v) = some true) :
    v ∈ ["1".data, "t".data, "T".data, "true".data, "TRUE".data, "True".data] := by
  unfold ParseBool at h
  split at h
  · rename_i hc
    rcases hc with hc | hc | hc | hc | hc | hc <;>
      · have hv := data_of_mk_eq _ _ hc
        subst hv
        decide
  · split at h <;> cases h

theorem ParseBool_false_values (v : List Char) (h : ParseBool (String.mk v) = some false) :
    v ∈ ["0".data, "f".data, "F".data, "false".data, "FALSE".data, "False".data] := by
  unfold ParseBool at h
  split at h
  · cases h
  · split at h
    · rename_i hc
      rcases hc with hc | hc | hc | hc | hc | hc <;>
        · have hv := data_of_mk_eq _ _ hc
          subst hv
          decide
    · cases h

theorem trueForms_of_value (v : List Char) (h : ParseBool (String.mk v) = some true) :
    String.mk ('-' :: 'n' :: '=' :: v) ∈ Spec.trueForms
      ∧ String.mk ('-' :: '-' :: 'n' :: '=' :: v) ∈ Spec.trueForms := by
  have hv := ParseBool_true_values v h
  simp only [List.mem_cons, List.mem_singleton, List.not_mem_nil, or_false] at hv
  rcases hv with hv | hv | hv | hv | hv | hv <;> subst hv <;> decide

theorem falseForms_of_value (v : List Char) (h : ParseBool (String.mk v) = some false) :
    String.mk ('-' :: 'n' :: '=' :: v) ∈ Spec.falseForms
      ∧ String.mk ('-' :: '-' :: 'n' :: '=' :: v) ∈ Spec.falseForms := by
  have hv := ParseBool_false_values v h
  simp only [List.mem_cons, List.mem_singleton, List.not_mem_nil, or_false] at hv
  rcases hv with hv | hv | hv | hv | hv | hv <;> subst hv <;> decide

theorem parseOne_trueForms (env : Env) (s : String) (h : s ∈ Spec.trueForms) :
    parseOne env s = ⟨[], .ret (.seen true)⟩ := by
  simp only [Spec.trueForms, List.mem_cons, List.mem_singleton, List.not_mem_nil, or_false] at h
  rcases h with h | h | h | h | h | h | h | h | h | h | h | h | h | h <;> subst h <;> rfl

theorem parseOne_falseForms (env : Env) (s : String) (h : s ∈ Spec.falseForms) :
    parseOne env s = ⟨[], .ret (.seen false)⟩ := by
  simp only [Spec.falseForms, List.mem_cons, List.mem_singleton, List.not_mem_nil, or_false] at h
  rcases h with h | h | h | h | h | h | h | h | h | h | h | h <;> subst h <;> rfl


theorem parseOne_name (env : Env) (s : String) (n0 : Char) (ns : List Char)
    (h0 : n0 ≠ '-') (h1 : n0 ≠ '=')
    (hs : s = String.mk ('-' :: n0 :: ns) ∨ s = String.mk ('-' :: '-' :: n0 :: ns)) :
    (s ∈ Spec.trueForms ∧ parseOne env s = ⟨[], .ret (.seen true)⟩) ∨
    (s ∈ Spec.falseForms ∧ parseOne env s = ⟨[], .ret (.seen false)⟩) ∨
    (∃ tr, parseOne env s = ⟨tr, .exit 0⟩ ∧ calls tr = []) := by
  have key : parseOne env s =
      (if String.mk (n0 :: (cutValue ns).1) = "n" then
        match (cutValue ns).2 with
        | some v =>
          match ParseBool (String.mk v) with
          | some b => pure (.seen b)
          | none => do
              let err ← failf env ("invalid boolean value " ++ env.quote (String.mk v)
                ++ " for -" ++ String.mk (n0 :: (cutValue ns).1) ++ ": parse error")
              pure (.failed err)
        | none => pure (.seen true)
      else if String.mk (n0 :: (cutValue ns).1) = "help"
          ∨ String.mk (n0 :: (cutValue ns).1) = "h" then do
        Usage env
        pure (.failed ErrHelp)
      else do
        let err ← failf env ("flag provided but not defined: -"
          ++ String.mk (n0 :: (cutValue ns).1))
        pure (.failed err)) := by
    rcases hs with hs | hs <;> subst hs <;> simp [parseOne, h0, h1]
  rw [key]
  by_cases hn : String.mk (n0 :: (cutValue ns).1) = "n"
  · rw [if_pos hn]
    have hd := data_of_mk_eq _ _ hn
    have hd2 : n0 = 'n' ∧ (cutValue ns).1 = [] := by
      have : "n".data = ['n'] := rfl
      rw [this] at hd
      simpa using hd
    obtain ⟨hn0, hcut⟩ := hd2
    subst hn0
    cases hv : (cutValue ns).2 with
    | none =>
      have hns := cutValue_nil_none ns hcut hv
      subst hns
      left
      refine ⟨?_, rfl⟩
      rcases hs with hs | hs <;> subst hs <;> decide
    | some v =>
      have hns : ns = '=' :: v := by
        rcases (cutValue_nil_iff ns).1 hcut with h | ⟨w, hw, hw2⟩
        · subst h; simp [cutValue] at hv
        · rw [hv] at hw2; cases hw2; exact hw
      subst hns
      cases hb : ParseBool (String.mk v) with
      | none =>
        right; right
        simp only [hb, bind_run, failf_run, bind_exit]
        exact ⟨_, rfl, rfl⟩
      | some b =>
        cases b with
        | true =>
          left
          simp only [hb]
          refine ⟨?_, rfl⟩
          rcases hs with hs | hs <;> subst hs
          · exact (trueForms_of_value v hb).1
          · exact (trueForms_of_value v hb).2
        | false =>
          right; left
          simp only [hb]
          refine ⟨?_, rfl⟩
          rcases hs with hs | hs <;> subst hs
          · exact (falseForms_of_value v hb).1
          · exact (falseForms_of_value v hb).2
  · rw [if_neg hn]
    right; right
    split
    · simp only [bind_run, Usage_run, bind_exit]
      exact ⟨_, rfl, rfl⟩
    · simp only [bind_run, failf_run, bind_exit]
      exact ⟨_, rfl, rfl⟩


theorem parseOne_flag (env : Env) (s : String) (h : Spec.isFlagToken s = true)
    (h2 : s ≠ "--") :
    (s ∈ Spec.trueForms ∧ parseOne env s = ⟨[], .ret (.seen true)⟩) ∨
    (s ∈ Spec.falseForms ∧ parseOne env s = ⟨[], .ret (.seen false)⟩) ∨
    (∃ tr, parseOne env s = ⟨tr, .exit 0⟩ ∧ calls tr = []) := by
  obtain ⟨cs⟩ := s
  rcases cs with _ | ⟨c0, _ | ⟨c1, t⟩⟩
  · simp [Spec.isFlagToken] at h
  · simp [Spec.isFlagToken] at h
  · have hc0 : c0 = '-' := by simpa [Spec.isFlagToken] using h
    subst hc0
    by_cases hc1 : c1 = '-'
    · subst hc1
      cases t with
      | nil => exact absurd rfl h2
      | cons n0 ns =>
        by_cases hbad : n0 = '-' ∨ n0 = '='
        · right; right
          have key : parseOne env (String.mk ('-' :: '-' :: n0 :: ns))
              = ⟨[.stderr ("bad flag syntax: " ++ String.mk ('-' :: '-' :: n0 :: ns) ++ "\n"),
                  .stdout (fmtPrint [help, env.hostsPath])], .exit 0⟩ := by
            simp [parseOne, hbad, bind_run, failf_run, bind_exit]
          exact ⟨_, key, rfl⟩
        · have h0 : n0 ≠ '-' := fun e => hbad (Or.inl e)
          have h1 : n0 ≠ '=' := fun e => hbad (Or.inr e)
          exact parseOne_name env _ n0 ns h0 h1 (Or.inr rfl)
    · by_cases hbad : c1 = '='
      · right; right
        subst hbad
        have key : parseOne env (String.mk ('-' :: '=' :: t))
            = ⟨[.stderr ("bad flag syntax: " ++ String.mk ('-' :: '=' :: t) ++ "\n"),
                .stdout (fmtPrint [help, env.hostsPath])], .exit 0⟩ := by
          simp [parseOne, bind_run, failf_run, bind_exit]
        exact ⟨_, key, rfl⟩
      · exact parseOne_name env _ c1 t hc1 hbad (Or.inl rfl)


theorem falseForms_not_true (s : String) (h : s ∈ Spec.falseForms) : s ∉ Spec.trueForms := by
  simp only [Spec.falseForms, List.mem_cons, List.mem_singleton, List.not_mem_nil, or_false] at h
  rcases h with h | h | h | h | h | h | h | h | h | h | h | h <;> subst h <;> decide

theorem lastWins_true_iff (flags : List String) (n : Bool) :
    lastWins n flags = true ↔
      (flags = [] ∧ n = true) ∨ ∃ t, flags.getLast? = some t ∧ t ∈ Spec.trueForms := by
  induction flags generalizing n with
  | nil => simp [lastWins]
  | cons s l ih =>
    have hstep : lastWins n (s :: l) = lastWins (decide (s ∈ Spec.trueForms)) l := rfl
    rw [hstep, ih]
    cases l with
    | nil => simp
    | cons t l2 => simp [List.getLast?_cons_cons]

theorem leadingFlags_cons_flag (s : String) (rest : List String)
    (h : Spec.isFlagToken s = true) (h2 : s ≠ "--") :
    Spec.leadingFlags (s :: rest) = s :: Spec.leadingFlags rest := by
  simp [Spec.leadingFlags, List.takeWhile_cons, h, h2]

theorem leadingFlags_cons_nonflag (s : String) (rest : List String)
    (h : Spec.isFlagToken s = false) : Spec.leadingFlags (s :: rest) = [] := by
  simp [Spec.leadingFlags, List.takeWhile_cons, h]

theorem leadingFlags_cons_terminator (rest : List String) :
    Spec.leadingFlags ("--" :: rest) = [] := by
  simp [Spec.leadingFlags, List.takeWhile_cons]

theorem parseLoop_cons (env : Env) (n : Bool) (s : String) (rest : List String) :
    parseLoop env n (s :: rest) = Run.bind (parseOne env s) (fun r =>
      match r with
      | .seen b => parseLoop env b rest
      | .stay => pure (n, s :: rest)
      | .terminator => pure (n, rest)
      | .failed err => if err = ErrHelp then osExit 0 else osExit 2) := rfl

/-- Flag parsing either returns, silently, with the last flag token of the
leading flag section deciding `n` and every token of that section a form of
`-n`, or ends the process with status 0 without any call into the core. -/
theorem parseLoop_spec (env : Env) (rest : List String) (n : Bool) :
    (∃ pos, parseLoop env n rest = ⟨[], .ret (lastWins n (Spec.leadingFlags rest), pos)⟩
        ∧ ∀ t ∈ Spec.leadingFlags rest, t ∈ Spec.trueForms ∨ t ∈ Spec.falseForms) ∨
    (∃ tr, parseLoop env n rest = ⟨tr, .exit 0⟩ ∧ calls tr = []) := by
  induction rest generalizing n with
  | nil => exact Or.inl ⟨[], rfl, by simp [Spec.leadingFlags]⟩
  | cons s rest ih =>
    rw [parseLoop_cons]
    cases hf : Spec.isFlagToken s with
    | false =>
      rw [parseOne_nonflag env s hf, leadingFlags_cons_nonflag s rest hf]
      exact Or.inl ⟨s :: rest, rfl, by simp⟩
    | true =>
      by_cases h2 : s = "--"
      · subst h2
        rw [parseOne_terminator, leadingFlags_cons_terminator]
        exact Or.inl ⟨rest, rfl, by simp⟩
      · rw [leadingFlags_cons_flag s rest hf h2]
        rcases parseOne_flag env s hf h2 with ⟨hm, hp⟩ | ⟨hm, hp⟩ | ⟨tr, hp, hc⟩
        · rw [hp, bind_ret]
          rcases ih true with ⟨pos, hl, hall⟩ | ⟨tr, hl, hc⟩
          · left
            refine ⟨pos, ?_, ?_⟩
            · simp only [hl, List.nil_append]
              simp [lastWins, hm]
            · intro t ht
              rcases List.mem_cons.1 ht with h | h
              · subst h; exact Or.inl hm
              · exact hall t h
          · right
            exact ⟨tr, by simp only [hl, List.nil_append], hc⟩
        · rw [hp, bind_ret]
          rcases ih false with ⟨pos, hl, hall⟩ | ⟨tr, hl, hc⟩
          · left
            refine ⟨pos, ?_, ?_⟩
            · simp only [hl, List.nil_append]
              simp [lastWins, falseForms_not_true s hm]
            · intro t ht
              rcases List.mem_cons.1 ht with h | h
              · subst h; exact Or.inr hm
              · exact hall t h
          · right
            exact ⟨tr, by simp only [hl, List.nil_append], hc⟩
        · right
          rw [hp, bind_exit]
          exact ⟨tr, rfl, hc⟩

theorem parseLoop_nonflag_head (env : Env) (n : Bool) (s : String) (rest : List String)
    (h : Spec.isFlagToken s = false) :
    parseLoop env n (s :: rest) = ⟨[], .ret (n, s :: rest)⟩ := by
  rw [parseLoop_cons, parseOne_nonflag env s h]
  rfl

/-! ## Lemmas: `wrappedMain` and its switch -/

theorem wrappedMain_nil (env : Env) (osArgs : List String) :
    wrappedMain env osArgs [] = ⟨[], .panic .argsIndex0⟩ := rfl

theorem wrappedMain_single (env : Env) (osArgs : List String) (prog : String) :
    wrappedMain env osArgs [prog]
      = ⟨[.stdout (fmtPrint [help, env.hostsPath])], .exit 0⟩ := rfl

theorem wrappedMain_cons (env : Env) (osArgs : List String) (prog cmd : String)
    (rest : List String) :
    wrappedMain env osArgs (prog :: cmd :: rest)
      = Run.bind (parseLoop env false rest) (fun r =>
          commandSwitch env osArgs (prog :: cmd :: rest) ⟨prog, r.1, r.2⟩ ⟨r.1⟩ cmd) := by
  simp only [wrappedMain, index0, sliceFrom2, FlagSet.Parse, NewFlagSet, bind_run, pure_run,
    bind_ret, Run.bind]
  cases hp : (parseLoop env false rest).step <;> simp


theorem parseLoop_noFlags (env : Env) (n : Bool) (positionals : List String)
    (h : ∀ s ∈ positionals.head?, Spec.isFlagToken s = false) :
    parseLoop env n positionals = ⟨[], .ret (n, positionals)⟩ := by
  cases positionals with
  | nil => rfl
  | cons s t => exact parseLoop_nonflag_head env n s t (h s rfl)

theorem Parse_run (env : Env) (f : FlagSet) (rest : List String) :
    f.Parse env rest = Run.bind (parseLoop env f.n rest)
      (fun r => ⟨[], .ret ({ f with n := r.1, args := r.2 }, none)⟩) := rfl

theorem Parse_returns (env : Env) (prog : String) (rest : List String)
    (v : FlagSet × Option GoError)
    (h : ((NewFlagSet prog).Parse env rest).step = .ret v) :
    parseLoop env false rest = ⟨[], .ret (v.1.n, v.1.args)⟩
      ∧ v.1.name = prog ∧ v.2 = none := by
  rw [Parse_run] at h
  rcases parseLoop_spec env rest false with ⟨pos, hl, _⟩ | ⟨tr, hl, _⟩
  · simp only [NewFlagSet] at h
    rw [hl, bind_ret] at h
    simp only [Step.ret.injEq] at h
    subst h
    exact ⟨hl, rfl, rfl⟩
  · simp only [NewFlagSet] at h
    rw [hl, bind_exit] at h
    cases h

/-- The ways the switch statement can end. -/
theorem commandSwitch_shape (env : Env) (osArgs args : List String) (cli : FlagSet)
    (o : Options) (cmd : String) :
    (cmd ∈ ["-v", "--version", "version"] ∧
      commandSwitch env osArgs args cli o cmd = ⟨[.stdout (Version ++ "\n")], .ret none⟩) ∨
    (cmd ∈ ["", "-h", "--help", "help"] ∧ commandSwitch env osArgs args cli o cmd
      = ⟨[.stdout (fmtPrint [help, env.hostsPath])], .exit 0⟩) ∨
    (∃ c, commandSwitch env osArgs args cli o cmd = ⟨[.call c], (env.core c).step⟩
      ∧ c.options = o) ∨
    (∃ e, commandSwitch env osArgs args cli o cmd = ⟨[], .ret (some e)⟩) ∨
    (osArgs = [] ∧ commandSwitch env osArgs args cli o cmd = ⟨[], .panic .osArgsIndex0⟩) ∨
    (args = [] ∧ commandSwitch env osArgs args cli o cmd = ⟨[], .panic .argsIndex0⟩) := by
  generalize hr : commandSwitch env osArgs args cli o cmd = r
  delta commandSwitch at hr
  by_cases hc : cmd = "-v" ∨ cmd = "--version" ∨ cmd = "version"
  · rw [if_pos hc] at hr; subst hr; exact Or.inl ⟨by simpa using hc, rfl⟩
  rw [if_neg hc] at hr
  clear hc
  by_cases hc : cmd = "" ∨ cmd = "-h" ∨ cmd = "--help" ∨ cmd = "help"
  · rw [if_pos hc] at hr; subst hr; exact Or.inr (Or.inl ⟨by simpa using hc, rfl⟩)
  rw [if_neg hc] at hr
  clear hc
  by_cases hc : cmd = "fmt"
  · rw [if_pos hc] at hr; subst hr; exact Or.inr (Or.inr (Or.inl ⟨_, rfl, rfl⟩))
  rw [if_neg hc] at hr
  clear hc
  by_cases hc : cmd = "add"
  · rw [if_pos hc] at hr
    by_cases ha : cli.args.length ≠ 2
    · rw [if_pos ha] at hr; subst hr; exact Or.inr (Or.inr (Or.inr (Or.inl ⟨_, rfl⟩)))
    · rw [if_neg ha] at hr; subst hr; exact Or.inr (Or.inr (Or.inl ⟨_, rfl, rfl⟩))
  rw [if_neg hc] at hr
  clear hc
  by_cases hc : cmd = "rm"
  · rw [if_pos hc] at hr
    by_cases ha : cli.Arg 0 = ""
    · rw [if_pos ha] at hr; subst hr
      cases osArgs
      · exact Or.inr (Or.inr (Or.inr (Or.inr (Or.inl ⟨rfl, rfl⟩))))
      · exact Or.inr (Or.inr (Or.inr (Or.inl ⟨_, rfl⟩)))
    · rw [if_neg ha] at hr; subst hr; exact Or.inr (Or.inr (Or.inl ⟨_, rfl, rfl⟩))
  rw [if_neg hc] at hr
  clear hc
  by_cases hc : cmd = "on"
  · rw [if_pos hc] at hr
    by_cases ha : cli.Arg 0 = ""
    · rw [if_pos ha] at hr; subst hr
      cases osArgs
      · exact Or.inr (Or.inr (Or.inr (Or.inr (Or.inl ⟨rfl, rfl⟩))))
      · exact Or.inr (Or.inr (Or.inr (Or.inl ⟨_, rfl⟩)))
    · rw [if_neg ha] at hr; subst hr; exact Or.inr (Or.inr (Or.inl ⟨_, rfl, rfl⟩))
  rw [if_neg hc] at hr
  clear hc
  by_cases hc : cmd = "off"
  · rw [if_pos hc] at hr
    by_cases ha : cli.Arg 0 = ""
    · rw [if_pos ha] at hr; subst hr
      cases osArgs
      · exact Or.inr (Or.inr (Or.inr (Or.inr (Or.inl ⟨rfl, rfl⟩))))
      · exact Or.inr (Or.inr (Or.inr (Or.inl ⟨_, rfl⟩)))
    · rw [if_neg ha] at hr; subst hr; exact Or.inr (Or.inr (Or.inl ⟨_, rfl, rfl⟩))
  rw [if_neg hc] at hr
  clear hc
  by_cases hc : cmd = "ls"
  · rw [if_pos hc] at hr; subst hr; exact Or.inr (Or.inr (Or.inl ⟨_, rfl, rfl⟩))
  rw [if_neg hc] at hr
  clear hc
  by_cases hc : cmd = "has"
  · rw [if_pos hc] at hr
    by_cases ha : cli.Arg 0 = ""
    · rw [if_pos ha] at hr; subst hr
      cases osArgs
      · exact Or.inr (Or.inr (Or.inr (Or.inr (Or.inl ⟨rfl, rfl⟩))))
      · exact Or.inr (Or.inr (Or.inr (Or.inl ⟨_, rfl⟩)))
    · rw [if_neg ha] at hr; subst hr; exact Or.inr (Or.inr (Or.inl ⟨_, rfl, rfl⟩))
  rw [if_neg hc] at hr
  clear hc
  by_cases hc : cmd = "dump"
  · rw [if_pos hc] at hr; subst hr; exact Or.inr (Or.inr (Or.inl ⟨_, rfl, rfl⟩))
  rw [if_neg hc] at hr
  clear hc
  by_cases hc : cmd = "apply"
  · rw [if_pos hc] at hr
    by_cases ha : cli.Arg 0 = ""
    · rw [if_pos ha] at hr; subst hr
      cases args
      · exact Or.inr (Or.inr (Or.inr (Or.inr (Or.inr ⟨rfl, rfl⟩))))
      · exact Or.inr (Or.inr (Or.inr (Or.inl ⟨_, rfl⟩)))
    · rw [if_neg ha] at hr; subst hr; exact Or.inr (Or.inr (Or.inl ⟨_, rfl, rfl⟩))
  rw [if_neg hc] at hr
  subst hr
  exact Or.inr (Or.inr (Or.inr (Or.inl ⟨_, rfl⟩)))

/-- The ways `wrappedMain` can end on an argument list with a command. -/
theorem wrappedMain_shape (env : Env) (osArgs : List String) (prog cmd : String)
    (rest : List String) :
    wrappedMain env osArgs (prog :: cmd :: rest) = ⟨[.stdout (Version ++ "\n")], .ret none⟩ ∨
    (∃ tr, wrappedMain env osArgs (prog :: cmd :: rest) = ⟨tr, .exit 0⟩ ∧ calls tr = []) ∨
    (∃ c, c.options.Preview = lastWins false (Spec.leadingFlags rest)
      ∧ wrappedMain env osArgs (prog :: cmd :: rest) = ⟨[.call c], (env.core c).step⟩) ∨
    (∃ e, wrappedMain env osArgs (prog :: cmd :: rest) = ⟨[], .ret (some e)⟩) ∨
    (osArgs = [] ∧ wrappedMain env osArgs (prog :: cmd :: rest)
      = ⟨[], .panic .osArgsIndex0⟩) := by
  rw [wrappedMain_cons]
  rcases parseLoop_spec env rest false with ⟨pos, hl, _⟩ | ⟨tr, hl, hc⟩
  · rw [hl, bind_ret]
    simp only [List.nil_append]
    rcases commandSwitch_shape env osArgs (prog :: cmd :: rest)
      ⟨prog, lastWins false (Spec.leadingFlags rest), pos⟩
      ⟨lastWins false (Spec.leadingFlags rest)⟩ cmd
      with ⟨_, h⟩ | ⟨_, h⟩ | ⟨c, h, ho⟩ | ⟨e, h⟩ | ⟨ho, h⟩ | ⟨ha, _⟩
    · exact Or.inl (by rw [h])
    · exact Or.inr (Or.inl ⟨[.stdout (fmtPrint [help, env.hostsPath])], by rw [h], rfl⟩)
    · exact Or.inr (Or.inr (Or.inl ⟨c, by rw [ho], by rw [h]⟩))
    · exact Or.inr (Or.inr (Or.inr (Or.inl ⟨e, by rw [h]⟩)))
    · exact Or.inr (Or.inr (Or.inr (Or.inr ⟨ho, by rw [h]⟩)))
    · cases ha
  · rw [hl, bind_exit]
    exact Or.inr (Or.inl ⟨tr, rfl, hc⟩)


theorem wrappedMain_parsed (env : Env) (osArgs : List String) (prog cmd : String)
    (rest : List String) (b : Bool) (pos : List String)
    (h : parseLoop env false rest = ⟨[], .ret (b, pos)⟩) :
    wrappedMain env osArgs (prog :: cmd :: rest)
      = commandSwitch env osArgs (prog :: cmd :: rest) ⟨prog, b, pos⟩ ⟨b⟩ cmd := by
  rw [wrappedMain_cons, h, bind_ret]
  rfl

theorem commandSwitch_oneArg (env : Env) (osArgs args : List String) (cli : FlagSet)
    (o : Options) (p : String × (Options → String → CoreCall)) (h : String)
    (t : List String) (hp : p ∈ Spec.oneArgCommands) (hargs : cli.args = h :: t)
    (hne : h ≠ "") :
    commandSwitch env osArgs args cli o p.1
      = ⟨[.call (p.2 o h)], (env.core (p.2 o h)).step⟩ := by
  simp only [Spec.oneArgCommands, List.mem_cons, List.mem_singleton, List.not_mem_nil,
    or_false] at hp
  rcases hp with hp | hp | hp | hp | hp <;> subst hp <;>
    simp [commandSwitch, callCore, FlagSet.Arg, hargs, hne]

theorem commandSwitch_oneArg_missing (env : Env) (a0 : String) (more : List String)
    (prog : String) (tail : List String) (cli : FlagSet)
    (o : Options) (p : String × (Options → String → CoreCall))
    (hp : p ∈ Spec.oneArgCommands) (hargs : cli.args = [] ∨ cli.args.head? = some "") :
    commandSwitch env (a0 :: more) (prog :: tail) cli o p.1
      = ⟨[], .ret (some (Spec.usageError a0 prog p.1))⟩ := by
  have harg : cli.Arg 0 = "" := by
    rcases hargs with h | h
    · simp [FlagSet.Arg, h]
    · cases hc : cli.args with
      | nil => simp [FlagSet.Arg, hc]
      | cons x xs =>
        rw [hc] at h
        simp only [List.head?_cons, Option.some.injEq] at h
        simp [FlagSet.Arg, hc, h]
  simp only [Spec.oneArgCommands, List.mem_cons, List.mem_singleton, List.not_mem_nil,
    or_false] at hp
  rcases hp with hp | hp | hp | hp | hp <;> subst hp <;>
    simp [commandSwitch, harg, CommandUsage, index0, bind_run, pure_run, Run.bind,
      Spec.usageError]

theorem commandSwitch_add (env : Env) (osArgs args : List String) (cli : FlagSet)
    (o : Options) :
    (∀ h ip, cli.args = [h, ip] → commandSwitch env osArgs args cli o "add"
        = ⟨[.call (.Add o h ip)], (env.core (.Add o h ip)).step⟩) ∧
    (cli.args.length ≠ 2 → commandSwitch env osArgs args cli o "add"
        = ⟨[], .ret (some ⟨"Usage: " ++ cli.name ++ " add <hostname> <ip>"⟩)⟩) := by
  constructor
  · intro h ip hargs
    simp [commandSwitch, callCore, FlagSet.Arg, hargs]
  · intro hlen
    simp [commandSwitch, hlen, pure_run]

theorem CoreEnd.step_ne_panic (e : CoreEnd) (site : PanicSite) : e.step ≠ .panic site := by
  cases e <;> simp [CoreEnd.step]

/-- A run of `wrappedMain` is one core call, ending as that call ends, or it
makes no core call and, when it ends the process itself, does so with
status 0. -/
theorem wrappedMain_ends (env : Env) (osArgs args : List String) :
    (∃ c, wrappedMain env osArgs args = ⟨[.call c], (env.core c).step⟩) ∨
    (calls (wrappedMain env osArgs args).trace = []
      ∧ ∀ code, (wrappedMain env osArgs args).step = .exit code → code = 0) := by
  rcases args with _ | ⟨prog, _ | ⟨cmd, rest⟩⟩
  · right
    rw [wrappedMain_nil]
    exact ⟨rfl, fun code h => by cases h⟩
  · right
    rw [wrappedMain_single]
    refine ⟨rfl, fun code h => ?_⟩
    simp only [Step.exit.injEq] at h
    exact h.symm
  · rcases wrappedMain_shape env osArgs prog cmd rest
      with hw | ⟨tr, hw, hc⟩ | ⟨c, _, hw⟩ | ⟨e, hw⟩ | ⟨_, hw⟩
    · right; rw [hw]; exact ⟨rfl, fun code h => by cases h⟩
    · right; rw [hw]
      refine ⟨hc, fun code h => ?_⟩
      simp only [Step.exit.injEq] at h
      exact h.symm
    · exact Or.inl ⟨c, hw⟩
    · right; rw [hw]; exact ⟨rfl, fun code h => by cases h⟩
    · right; rw [hw]; exact ⟨rfl, fun code h => by cases h⟩

theorem main_run (env : Env) (osArgs : List String) :
    main env osArgs = Run.bind (wrappedMain env osArgs osArgs) ExitWithError := rfl

theorem wrappedMain_calls_preview (env : Env) (osArgs : List String) (prog cmd : String)
    (rest : List String) (c : CoreCall)
    (hc : c ∈ calls (wrappedMain env osArgs (prog :: cmd :: rest)).trace) :
    c.options.Preview = lastWins false (Spec.leadingFlags rest) := by
  rcases wrappedMain_shape env osArgs prog cmd rest
    with hw | ⟨tr, hw, hcalls⟩ | ⟨d, hd, hw⟩ | ⟨e, hw⟩ | ⟨_, hw⟩ <;> rw [hw] at hc
  · simp [calls] at hc
  · simp [hcalls] at hc
  · simp only [calls, List.mem_singleton] at hc
    subst hc
    exact hd
  · simp [calls] at hc
  · simp [calls] at hc

/-! ## The claims -/

/-- C1: for an argument list `[prog, cmd, positionals...]` without flags whose
positionals pass the command's argument check, `wrappedMain` makes exactly
one call into the core, the one the command surface names (`add h ip` calls
`Add` with the hostname first and the address second), with the options of
a run without flags, writes nothing itself, and ends as that call ends: it
returns what the call returned. -/
theorem wrappedMain_dispatch (env : Env) (osArgs : List String) (prog cmd : String)
    (positionals : List String) (c : CoreCall)
    (hflags : ∀ s ∈ positionals, Spec.isFlagToken s = false)
    (hcheck : Spec.dispatch ⟨false⟩ cmd positionals = some c) :
    wrappedMain env osArgs (prog :: cmd :: positionals) = ⟨[.call c], (env.core c).step⟩ := by
  have hparse := parseLoop_noFlags env false positionals
    (fun s hs => hflags s (List.mem_of_mem_head? hs))
  rw [wrappedMain_cons, hparse, bind_ret]
  unfold Spec.dispatch at hcheck
  split at hcheck
  · rename_i h; subst h
    cases hcheck
    simp [commandSwitch, callCore]
  · split at hcheck
    · rename_i h; subst h
      split at hcheck
      · cases hcheck
        simp [commandSwitch, callCore, FlagSet.Arg]
      · cases hcheck
    · split at hcheck
      · rename_i h; subst h
        cases hcheck
        simp [commandSwitch, callCore]
      · split at hcheck
        · rename_i h; subst h
          cases hcheck
          simp [commandSwitch, callCore]
        · split at hcheck
          · cases hcheck
          · rename_i hfmt hadd hls hdump h t
            split at hcheck
            · cases hcheck
            · rename_i hne
              split at hcheck
              · rename_i hc; subst hc; cases hcheck
                simp [commandSwitch, callCore, FlagSet.Arg, hne]
              · split at hcheck
                · rename_i hc; subst hc; cases hcheck
                  simp [commandSwitch, callCore, FlagSet.Arg, hne]
                · split at hcheck
                  · rename_i hc; subst hc; cases hcheck
                    simp [commandSwitch, callCore, FlagSet.Arg, hne]
                  · split at hcheck
                    · rename_i hc; subst hc; cases hcheck
                      simp [commandSwitch, callCore, FlagSet.Arg, hne]
                    · split at hcheck
                      · rename_i hc; subst hc; cases hcheck
                        simp [commandSwitch, callCore, FlagSet.Arg, hne]
                      · cases hcheck

/-- Witness of `wrappedMain_dispatch`: `add h 1.2.3.4` calls `Add` with the
hostname first and the address second. -/
theorem wrappedMain_dispatch_witness :
    wrappedMain demoEnv ["hostess"] ["hostess", "add", "h", "1.2.3.4"]
      = ⟨[.call (.Add ⟨false⟩ "h" "1.2.3.4")],
          (demoEnv.core (.Add ⟨false⟩ "h" "1.2.3.4")).step⟩ :=
  wrappedMain_dispatch demoEnv ["hostess"] "hostess" "add" ["h", "1.2.3.4"]
    (.Add ⟨false⟩ "h" "1.2.3.4") (by decide) (by decide)

/-- C2 as stated fails: in `rm h -n` the flag `-n` is among `args[2:]`, the
command is a mutating one, and `Remove` is called with `Preview = false`. -/
theorem preview_any_position_counterexample :
    "rm" ∈ Spec.mutatingCommands ∧ "-n" ∈ ["h", "-n"]
      ∧ ¬ Spec.previewOnly (wrappedMain demoEnv ["hostess"] ["hostess", "rm", "h", "-n"]).trace := by
  refine ⟨by decide, by decide, ?_⟩
  intro h
  exact absurd (h (.Remove ⟨false⟩ "h") (by decide)) (by decide)

/-- C2, as the code has it: for a mutating command whose `args[2:]` has the
flag `-n` in a true form in the leading flag section (before the first
non-flag argument and before any `--`), with no false form of `-n` after it
in that section, no core operation is called with `Preview = false`: the run
calls one operation with `Preview = true`, or returns an error without any
call, or ends in flag parsing (status 0) without any call.  The global
`os.Args` is `a0 :: more`, not empty. -/
theorem preview_leading_flag (env : Env) (a0 : String) (more : List String)
    (prog cmd : String) (rest : List String)
    (hcmd : cmd ∈ Spec.mutatingCommands)
    (hflag : ∃ before s later, Spec.leadingFlags rest = before ++ s :: later
      ∧ s ∈ Spec.trueForms ∧ ∀ t ∈ later, t ∉ Spec.falseForms) :
    Spec.previewOnly (wrappedMain env (a0 :: more) (prog :: cmd :: rest)).trace ∧
    ((∃ c, c.options.Preview = true ∧ wrappedMain env (a0 :: more) (prog :: cmd :: rest)
        = ⟨[.call c], (env.core c).step⟩) ∨
     (∃ e, wrappedMain env (a0 :: more) (prog :: cmd :: rest) = ⟨[], .ret (some e)⟩) ∨
     (∃ tr, wrappedMain env (a0 :: more) (prog :: cmd :: rest) = ⟨tr, .exit 0⟩
        ∧ calls tr = [])) := by
  obtain ⟨before, s, later, hsec, hs, hlater⟩ := hflag
  have hlast : (∃ pos, parseLoop env false rest
        = ⟨[], .ret (lastWins false (Spec.leadingFlags rest), pos)⟩) →
      lastWins false (Spec.leadingFlags rest) = true := by
    intro hret
    rcases parseLoop_spec env rest false with ⟨pos, _, hall⟩ | ⟨tr, hl, _⟩
    · rw [lastWins_true_iff]
      right
      rw [hsec, List.getLast?_append_cons]
      cases hlat : later.getLast? with
      | none =>
        have : later = [] := List.getLast?_eq_none_iff.1 hlat
        subst this
        exact ⟨s, rfl, hs⟩
      | some t =>
        have htm : t ∈ later := List.mem_of_getLast?_eq_some hlat
        have : t ∈ Spec.leadingFlags rest := by
          rw [hsec]; simp [htm]
        rcases hall t this with ht | ht
        · refine ⟨t, ?_, ht⟩
          cases later with
          | nil => cases htm
          | cons u us => simp [List.getLast?_cons_cons, hlat]
        · exact absurd ht (hlater t htm)
    · obtain ⟨pos, hp⟩ := hret
      rw [hp] at hl
      cases hl
  rcases parseLoop_spec env rest false with ⟨pos, hl, _⟩ | ⟨tr, hl, hcalls⟩
  · have htrue := hlast ⟨pos, hl⟩
    rw [htrue] at hl
    have hw := wrappedMain_parsed env (a0 :: more) prog cmd rest true pos hl
    rcases commandSwitch_shape env (a0 :: more) (prog :: cmd :: rest) ⟨prog, true, pos⟩
      ⟨true⟩ cmd with ⟨hv, _⟩ | ⟨hv, _⟩ | ⟨c, h, ho⟩ | ⟨e, h⟩ | ⟨ho, _⟩ | ⟨ha, _⟩
    · exfalso
      simp only [Spec.mutatingCommands, List.mem_cons, List.mem_singleton, List.not_mem_nil,
        or_false] at hcmd
      rcases hcmd with hc | hc | hc | hc | hc | hc <;> subst hc <;> exact absurd hv (by decide)
    · exfalso
      simp only [Spec.mutatingCommands, List.mem_cons, List.mem_singleton, List.not_mem_nil,
        or_false] at hcmd
      rcases hcmd with hc | hc | hc | hc | hc | hc <;> subst hc <;> exact absurd hv (by decide)
    · rw [h] at hw
      refine ⟨?_, Or.inl ⟨c, by rw [ho], hw⟩⟩
      rw [hw]
      intro d hd
      simp only [calls, List.mem_singleton] at hd
      subst hd
      rw [ho]
    · rw [h] at hw
      refine ⟨?_, Or.inr (Or.inl ⟨e, hw⟩)⟩
      rw [hw]
      intro d hd
      simp [calls] at hd
    · cases ho
    · cases ha
  · have hw : wrappedMain env (a0 :: more) (prog :: cmd :: rest) = ⟨tr, .exit 0⟩ := by
      rw [wrappedMain_cons, hl, bind_exit]
    refine ⟨?_, Or.inr (Or.inr ⟨tr, hw, hcalls⟩)⟩
    rw [hw]
    intro d hd
    simp [hcalls] at hd

/-- Witness of `preview_leading_flag` at `rm -n h`. -/
theorem preview_leading_flag_witness :
    Spec.previewOnly (wrappedMain demoEnv ["hostess"] ["hostess", "rm", "-n", "h"]).trace :=
  (preview_leading_flag demoEnv "hostess" [] "hostess" "rm" ["-n", "h"] (by decide)
    ⟨[], "-n", [], by decide, by decide, by simp⟩).1

/-- C3: on an argument list of length at least 2 whose `args[2:]` parse
without a flag error and whose command is not, case-sensitively, one of the
known commands, `wrappedMain` returns `ErrInvalidCommand`, writes nothing and
calls no core operation. -/
theorem unknown_command_invalid (env : Env) (osArgs : List String) (prog cmd : String)
    (rest : List String)
    (hparse : ∃ v, ((NewFlagSet prog).Parse env rest).step = .ret v)
    (hcmd : cmd ∉ Spec.knownCommands) :
    wrappedMain env osArgs (prog :: cmd :: rest) = ⟨[], .ret (some ErrInvalidCommand)⟩ := by
  obtain ⟨v, hv⟩ := hparse
  obtain ⟨hl, _, _⟩ := Parse_returns env prog rest v hv
  rw [wrappedMain_cons, hl, bind_ret]
  simp only [Spec.knownCommands, List.mem_cons, List.mem_singleton, List.not_mem_nil,
    or_false, not_or] at hcmd
  simp [commandSwitch, hcmd, pure_run]

/-- Witness of `unknown_command_invalid`: a flag in the place of the command,
and a command in upper case. -/
theorem unknown_command_invalid_witness :
    wrappedMain demoEnv ["hostess", "-n", "fmt"] ["hostess", "-n", "fmt"]
        = ⟨[], .ret (some ErrInvalidCommand)⟩
      ∧ wrappedMain demoEnv ["hostess", "ADD", "h", "1.2.3.4"] ["hostess", "ADD", "h", "1.2.3.4"]
        = ⟨[], .ret (some ErrInvalidCommand)⟩ :=
  ⟨unknown_command_invalid demoEnv _ "hostess" "-n" ["fmt"] ⟨_, rfl⟩ (by decide),
   unknown_command_invalid demoEnv _ "hostess" "ADD" ["h", "1.2.3.4"] ⟨_, rfl⟩ (by decide)⟩

/-- C4 as stated fails: with a core whose `Has` ends the process with status 1
on an absent host, `has missing.example` ends with exit status 1, nothing is
written to standard error, and `wrappedMain` does not return an error: it
does not return. -/
theorem exit_status_one_counterexample :
    ¬ (exitStatus (main absentHostEnv ["hostess", "has", "missing.example"]) = 1
        ↔ ∃ e, (wrappedMain absentHostEnv ["hostess", "has", "missing.example"]
            ["hostess", "has", "missing.example"]).step = .ret (some e)) := by
  intro h
  obtain ⟨e, he⟩ := h.1 (by decide)
  have hs : (wrappedMain absentHostEnv ["hostess", "has", "missing.example"]
      ["hostess", "has", "missing.example"]).step = .exit 1 := by decide
  rw [hs] at he
  cases he

/-- C4, as the code has it: when `wrappedMain` returns a non-nil error, `main`
writes the error text and a newline to standard error, as its last writes,
and ends with exit status 1; when `wrappedMain` returns nil, `ExitWithError`
writes nothing and does not exit, and the status is 0.  `main` ends with
status 1 exactly when `wrappedMain` returns a non-nil error or the one core
operation it calls ends the process itself with status 1.  For
`has <hostname>` the status is 0 when the core `Has` returns nil, 1 when it
returns an error, and the status `Has` exits with when it ends the process
itself. -/
theorem main_exit_status (env : Env) (osArgs : List String) :
    (∀ e, (wrappedMain env osArgs osArgs).step = .ret (some e) →
      main env osArgs = ⟨(wrappedMain env osArgs osArgs).trace
        ++ [.stderr e.msg, .stderr "\n"], .exit 1⟩) ∧
    ((wrappedMain env osArgs osArgs).step = .ret none →
      main env osArgs = ⟨(wrappedMain env osArgs osArgs).trace, .ret ()⟩
        ∧ exitStatus (main env osArgs) = 0) ∧
    ExitWithError none = ⟨[], .ret ()⟩ ∧
    (exitStatus (main env osArgs) = 1
      ↔ (∃ e, (wrappedMain env osArgs osArgs).step = .ret (some e))
        ∨ (∃ c, env.core c = .exit 1
            ∧ wrappedMain env osArgs osArgs = ⟨[.call c], .exit 1⟩
            ∧ main env osArgs = ⟨[.call c], .exit 1⟩)) ∧
    (∀ prog h, osArgs = [prog, "has", h] → Spec.isFlagToken h = false → h ≠ "" →
      calls (main env osArgs).trace = [.Has ⟨false⟩ h]
        ∧ exitStatus (main env osArgs)
          = match env.core (.Has ⟨false⟩ h) with
            | .ret none => 0
            | .ret (some _) => 1
            | .exit code => code) := by
  refine ⟨?_, ?_, rfl, ?_, ?_⟩
  · intro e he
    rw [main_run]
    generalize wrappedMain env osArgs osArgs = w at he ⊢
    obtain ⟨tr, st⟩ := w
    simp only at he
    subst he
    rfl
  · intro he
    rw [main_run]
    generalize wrappedMain env osArgs osArgs = w at he ⊢
    obtain ⟨tr, st⟩ := w
    simp only at he
    subst he
    simp [Run.bind, ExitWithError, pure_run, exitStatus]
  · have hends := wrappedMain_ends env osArgs osArgs
    rw [main_run]
    constructor
    · intro hone
      rcases hends with ⟨c, hw⟩ | ⟨_, hcode⟩
      · rw [hw] at hone ⊢
        cases hcore : env.core c with
        | ret r =>
          cases r with
          | none =>
            rw [hcore] at hone
            simp [Run.bind, CoreEnd.step, ExitWithError, pure_run, exitStatus] at hone
          | some e => exact Or.inl ⟨e, rfl⟩
        | exit code =>
          rw [hcore] at hone
          have h1 : code = 1 := by
            simpa [Run.bind, CoreEnd.step, exitStatus] using hone
          subst h1
          exact Or.inr ⟨c, hcore, rfl, rfl⟩
      · generalize wrappedMain env osArgs osArgs = w at hcode hone ⊢
        obtain ⟨tr, st⟩ := w
        cases st with
        | ret r =>
          cases r with
          | none => simp [Run.bind, ExitWithError, pure_run, exitStatus] at hone
          | some e => exact Or.inl ⟨e, rfl⟩
        | exit code =>
          have h0 := hcode code rfl
          subst h0
          simp [Run.bind, exitStatus] at hone
        | panic site => simp [Run.bind, exitStatus] at hone
    · intro h
      rcases h with ⟨e, he⟩ | ⟨c, _, hw, _⟩
      · generalize wrappedMain env osArgs osArgs = w at he ⊢
        obtain ⟨tr, st⟩ := w
        simp only at he
        subst he
        rfl
      · rw [hw]
        rfl
  · intro prog h hos hflag hne
    subst hos
    have hp := parseLoop_nonflag_head env false h [] hflag
    have hw := wrappedMain_parsed env [prog, "has", h] prog "has" [h] false [h] hp
    rw [commandSwitch_oneArg env _ _ _ _ ("has", .Has) h [] (by simp [Spec.oneArgCommands])
      rfl hne] at hw
    rw [main_run, hw]
    cases hcore : env.core (.Has ⟨false⟩ h) with
    | ret r =>
      cases r with
      | none => simp [Run.bind, CoreEnd.step, ExitWithError, pure_run, exitStatus, calls]
      | some e =>
        simp [Run.bind, CoreEnd.step, ExitWithError, bind_run, writeStderr, osExit,
          exitStatus, calls]
    | exit code => simp [Run.bind, CoreEnd.step, exitStatus, calls]

/-- C5 as stated fails: on `rm -h` no positional argument follows `rm`, and
`wrappedMain` neither calls a core operation nor returns a usage error: the
help flag ends the process inside flag parsing, with status 0. -/
theorem usage_error_counterexample :
    wrappedMain demoEnv ["hostess", "rm", "-h"] ["hostess", "rm", "-h"]
        = ⟨[.stdout (fmtPrint [help, demoEnv.hostsPath])], .exit 0⟩
      ∧ calls (wrappedMain demoEnv ["hostess", "rm", "-h"] ["hostess", "rm", "-h"]).trace = []
      ∧ ¬ ∃ e, (wrappedMain demoEnv ["hostess", "rm", "-h"] ["hostess", "rm", "-h"]).step
          = .ret (some e) := by
  refine ⟨rfl, rfl, ?_⟩
  rintro ⟨e, he⟩
  have hs : (wrappedMain demoEnv ["hostess", "rm", "-h"] ["hostess", "rm", "-h"]).step
      = .exit 0 := rfl
  rw [hs] at he
  cases he

/-- C5, as the code has it: argument validation comes before any core
operation.  When parsing the flags of `args[2:]` returns, leaving the
positional arguments `cli.args`: `add` calls `Add` when exactly two
positionals are left, and otherwise returns the error
`Usage: <args[0]> add <hostname> <ip>` without any call; `rm`, `on`, `off`,
`has`, `apply` call their operation on the first positional when it is
present and not empty, and otherwise return, without any call, the error
`Usage: <os.Args[0]> <command> <hostname>` (for `apply`,
`Usage: <args[0]> apply <filename>`).  When flag parsing does not return, no
core operation is called.  The global `os.Args` is `a0 :: more`, not empty. -/
theorem argument_validation (env : Env) (a0 : String) (more : List String)
    (prog : String) (rest : List String) :
    (∀ cli err, ((NewFlagSet prog).Parse env rest).step = .ret (cli, err) →
      (∀ h ip, cli.args = [h, ip] →
        wrappedMain env (a0 :: more) (prog :: "add" :: rest)
          = ⟨[.call (.Add ⟨cli.n⟩ h ip)], (env.core (.Add ⟨cli.n⟩ h ip)).step⟩) ∧
      (cli.args.length ≠ 2 →
        wrappedMain env (a0 :: more) (prog :: "add" :: rest)
          = ⟨[], .ret (some ⟨"Usage: " ++ prog ++ " add <hostname> <ip>"⟩)⟩) ∧
      (∀ p ∈ Spec.oneArgCommands,
        (∀ h t, cli.args = h :: t → h ≠ "" →
          wrappedMain env (a0 :: more) (prog :: p.1 :: rest)
            = ⟨[.call (p.2 ⟨cli.n⟩ h)], (env.core (p.2 ⟨cli.n⟩ h)).step⟩) ∧
        (cli.args = [] ∨ cli.args.head? = some "" →
          wrappedMain env (a0 :: more) (prog :: p.1 :: rest)
            = ⟨[], .ret (some (Spec.usageError a0 prog p.1))⟩))) ∧
    ((∀ v, ((NewFlagSet prog).Parse env rest).step ≠ .ret v) →
      ∀ cmd, calls (wrappedMain env (a0 :: more) (prog :: cmd :: rest)).trace = []) := by
  constructor
  · intro cli err hparse
    obtain ⟨hl, hname, _⟩ := Parse_returns env prog rest (cli, err) hparse
    simp only at hl hname
    have hcli : (⟨prog, cli.n, cli.args⟩ : FlagSet) = cli := by
      cases cli; simp only at hname; subst hname; rfl
    have hw := fun cmd => wrappedMain_parsed env (a0 :: more) prog cmd rest cli.n cli.args hl
    rw [hcli] at hw
    refine ⟨?_, ?_, ?_⟩
    · intro h ip hargs
      rw [hw, (commandSwitch_add env _ _ cli ⟨cli.n⟩).1 h ip hargs]
    · intro hlen
      rw [hw, (commandSwitch_add env _ _ cli ⟨cli.n⟩).2 hlen, hname]
    · intro p hp
      refine ⟨?_, ?_⟩
      · intro h t hargs hne
        rw [hw, commandSwitch_oneArg env _ _ cli ⟨cli.n⟩ p h t hp hargs hne]
      · intro hargs
        rw [hw]
        exact commandSwitch_oneArg_missing env a0 more prog _ cli ⟨cli.n⟩ p hp hargs
  · intro hno cmd
    rcases parseLoop_spec env rest false with ⟨pos, hl, _⟩ | ⟨tr, hl, hc⟩
    · exfalso
      refine hno (⟨prog, lastWins false (Spec.leadingFlags rest), pos⟩, none) ?_
      rw [Parse_run]
      simp only [NewFlagSet]
      rw [hl, bind_ret]
    · rw [wrappedMain_cons, hl, bind_exit]
      exact hc

/-- Witness of `argument_validation`: after `-n`, one positional remains, which
`add` rejects and `rm` takes; `rm -n` has none left and returns the usage
error of `CommandUsage`; on `rm -x` flag parsing does not return. -/
theorem argument_validation_witness :
    wrappedMain demoEnv ["hostess"] ["hostess", "add", "-n", "h"]
        = ⟨[], .ret (some ⟨"Usage: hostess add <hostname> <ip>"⟩)⟩
      ∧ wrappedMain demoEnv ["hostess"] ["hostess", "rm", "-n", "h"]
        = ⟨[.call (.Remove ⟨true⟩ "h")], .ret none⟩
      ∧ wrappedMain demoEnv ["hostess"] ["hostess", "rm", "-n"]
        = ⟨[], .ret (some ⟨"Usage: hostess rm <hostname>"⟩)⟩
      ∧ calls (wrappedMain demoEnv ["hostess"] ["hostess", "rm", "-x"]).trace = [] :=
  ⟨((argument_validation demoEnv "hostess" [] "hostess" ["-n", "h"]).1
      ⟨"hostess", true, ["h"]⟩ none rfl).2.1 (by decide),
   (((argument_validation demoEnv "hostess" [] "hostess" ["-n", "h"]).1
      ⟨"hostess", true, ["h"]⟩ none rfl).2.2 ("rm", .Remove)
        (by simp [Spec.oneArgCommands])).1 "h" [] rfl (by decide),
   (((argument_validation demoEnv "hostess" [] "hostess" ["-n"]).1
      ⟨"hostess", true, []⟩ none rfl).2.2 ("rm", .Remove)
        (by simp [Spec.oneArgCommands])).2 (Or.inl rfl),
   (argument_validation demoEnv "hostess" [] "hostess" ["-x"]).2
      (fun v hv => by
        have hs : ((NewFlagSet "hostess").Parse demoEnv ["-x"]).step = .exit 0 := rfl
        rw [hs] at hv
        cases hv) "rm"⟩

/-- C6: on `fmt -x` the process writes the flag error to standard error and
the help text to standard output, calls no core operation, and ends with
exit status 0, not 1: the `Usage` function the flag set calls on a flag
error exits with status 0 before the error can reach `ExitWithError`. -/
theorem undefined_flag_exit_status (env : Env) (prog : String) :
    main env [prog, "fmt", "-x"]
        = ⟨[.stderr "flag provided but not defined: -x\n",
            .stdout (fmtPrint [help, env.hostsPath])], .exit 0⟩
      ∧ exitStatus (main env [prog, "fmt", "-x"]) = 0
      ∧ calls (main env [prog, "fmt", "-x"]).trace = [] :=
  ⟨rfl, rfl, rfl⟩

/-- C7: on an argument list of length 1, and for the commands `""`, `-h`,
`--help` and `help`, `Usage` writes the help template itself, its `%s` left
in place, followed by the hosts-file path, and ends the process with
status 0: the first line printed is `An idempotent tool for managing %s`,
not the line with the path in the place of `%s`, and the path comes after
the last line. -/
theorem usage_prints_template (env : Env) (prog : String) :
    main env [prog] = ⟨[.stdout (help ++ env.hostsPath)], .exit 0⟩
      ∧ (∀ cmd ∈ ["", "-h", "--help", "help"],
          main env [prog, cmd] = ⟨[.stdout (help ++ env.hostsPath)], .exit 0⟩)
      ∧ Spec.firstLine (help ++ env.hostsPath) = "An idempotent tool for managing %s"
      ∧ Spec.firstLine (fmtPrint [help, demoEnv.hostsPath])
        ≠ "An idempotent tool for managing /etc/hosts" := by
  have hp : fmtPrint [help, env.hostsPath] = help ++ env.hostsPath := by
    simp [fmtPrint, String.join]
  refine ⟨?_, ?_, rfl, by decide⟩
  · show (⟨[.stdout (fmtPrint [help, env.hostsPath])], .exit 0⟩ : Run Unit) = _
    rw [hp]
  · intro cmd hcmd
    simp only [List.mem_cons, List.mem_singleton, List.not_mem_nil, or_false] at hcmd
    rw [← hp]
    rcases hcmd with h | h | h | h <;> subst h <;> rfl

/-- C8 as stated fails: in `rm -n -n=false h` the flag `-n` occurs in a true
form in the leading flag section, and `Remove` is called with
`Preview = false`. -/
theorem preview_iff_occurs_counterexample :
    ¬ (∀ c ∈ calls (wrappedMain demoEnv ["hostess"]
          ["hostess", "rm", "-n", "-n=false", "h"]).trace,
        (c.options.Preview = true
          ↔ ∃ s ∈ Spec.leadingFlags ["-n", "-n=false", "h"], s ∈ Spec.trueForms)) := by
  intro h
  have h1 := h (.Remove ⟨false⟩ "h") (by decide)
  have h2 : ∃ s ∈ Spec.leadingFlags ["-n", "-n=false", "h"], s ∈ Spec.trueForms :=
    ⟨"-n", by decide, by decide⟩
  exact absurd (h1.2 h2) (by decide)

/-- C8, as the code has it: the `Options` of a core call has `Preview = true`
if and only if the last flag of the leading flag section of `args[2:]` (the
flag tokens before the first non-flag argument and before any `--`) is `-n`
in a true form; a later `-n=false` overrides an earlier `-n`.  Without any
flag token in `args[2:]`, `Preview = false`. -/
theorem preview_iff_last_flag (env : Env) (osArgs : List String) (prog cmd : String)
    (rest : List String) (c : CoreCall)
    (hc : c ∈ calls (wrappedMain env osArgs (prog :: cmd :: rest)).trace) :
    (c.options.Preview = true
      ↔ ∃ s, (Spec.leadingFlags rest).getLast? = some s ∧ s ∈ Spec.trueForms) ∧
    ((∀ s ∈ rest, Spec.isFlagToken s = false) → c.options.Preview = false) := by
  have h := wrappedMain_calls_preview env osArgs prog cmd rest c hc
  constructor
  · rw [h, lastWins_true_iff]
    simp
  · intro hno
    have hnil : Spec.leadingFlags rest = [] := by
      cases rest with
      | nil => rfl
      | cons s t => exact leadingFlags_cons_nonflag s t (hno s (List.mem_cons_self s t))
    rw [h, hnil]
    rfl

/-- Witness of `preview_iff_last_flag`: `rm -n h` calls `Remove` in preview
mode, `rm h` calls it with `Preview = false`. -/
theorem preview_iff_last_flag_witness :
    (wrappedMain demoEnv ["hostess"] ["hostess", "rm", "-n", "h"]).trace
        = [.call (.Remove ⟨true⟩ "h")]
      ∧ (wrappedMain demoEnv ["hostess"] ["hostess", "rm", "h"]).trace
        = [.call (.Remove ⟨false⟩ "h")]
      ∧ ((CoreCall.Remove ⟨true⟩ "h").options.Preview = true
        ↔ ∃ s, (Spec.leadingFlags ["-n", "h"]).getLast? = some s ∧ s ∈ Spec.trueForms) :=
  ⟨rfl, rfl, (preview_iff_last_flag demoEnv ["hostess"] "hostess" "rm" ["-n", "h"]
    (.Remove ⟨true⟩ "h") (by decide)).1⟩

/-- C9: for `rm`, `on`, `off`, `has` and `apply`, with a first positional
argument `h` (an argument that is not a flag token) that is not empty,
whatever follows it is ignored: the run on `[prog, cmd, h] ++ xs` is the run
on `[prog, cmd, h]`, one call of the operation on `h` with the same options.
`fmt`, `ls` and `dump` ignore their positionals as well; only `add`, which
takes `h ip`, rejects a surplus positional argument. -/
theorem surplus_positionals_ignored (env : Env) (osArgs : List String) (prog h : String)
    (xs : List String) (hne : h ≠ "") (hpos : Spec.isFlagToken h = false) :
    (∀ p ∈ Spec.oneArgCommands,
      wrappedMain env osArgs ([prog, p.1, h] ++ xs) = wrappedMain env osArgs [prog, p.1, h]
        ∧ wrappedMain env osArgs [prog, p.1, h]
          = ⟨[.call (p.2 ⟨false⟩ h)], (env.core (p.2 ⟨false⟩ h)).step⟩) ∧
    (∀ cmd ∈ ["fmt", "ls", "dump"],
      wrappedMain env osArgs ([prog, cmd, h] ++ xs) = wrappedMain env osArgs [prog, cmd]) ∧
    (∀ ip, wrappedMain env osArgs [prog, "add", h, ip]
        = ⟨[.call (.Add ⟨false⟩ h ip)], (env.core (.Add ⟨false⟩ h ip)).step⟩) ∧
    (∀ ip x, wrappedMain env osArgs ([prog, "add", h, ip, x] ++ xs)
        = ⟨[], .ret (some ⟨"Usage: " ++ prog ++ " add <hostname> <ip>"⟩)⟩) := by
  have hparse := fun t => parseLoop_nonflag_head env false h t hpos
  refine ⟨?_, ?_, ?_, ?_⟩
  · intro p hp
    have h1 := wrappedMain_parsed env osArgs prog p.1 (h :: xs) false (h :: xs) (hparse xs)
    have h2 := wrappedMain_parsed env osArgs prog p.1 [h] false [h] (hparse [])
    rw [commandSwitch_oneArg env _ _ _ _ p h xs hp rfl hne] at h1
    rw [commandSwitch_oneArg env _ _ _ _ p h [] hp rfl hne] at h2
    exact ⟨h1.trans h2.symm, h2⟩
  · intro cmd hcmd
    have h1 := wrappedMain_parsed env osArgs prog cmd (h :: xs) false (h :: xs) (hparse xs)
    have h2 := wrappedMain_parsed env osArgs prog cmd [] false [] rfl
    simp only [List.mem_cons, List.mem_singleton, List.not_mem_nil, or_false] at hcmd
    show wrappedMain env osArgs (prog :: cmd :: h :: xs) = _
    rw [h1, h2]
    rcases hcmd with hc | hc | hc <;> subst hc <;> simp [commandSwitch]
  · intro ip
    have h1 := wrappedMain_parsed env osArgs prog "add" [h, ip] false [h, ip] (hparse [ip])
    rw [h1]
    exact (commandSwitch_add env _ _ _ _).1 h ip rfl
  · intro ip x
    have h1 := wrappedMain_parsed env osArgs prog "add" (h :: ip :: x :: xs) false
      (h :: ip :: x :: xs) (hparse (ip :: x :: xs))
    show wrappedMain env osArgs (prog :: "add" :: h :: ip :: x :: xs) = _
    rw [h1]
    exact (commandSwitch_add env _ _ _ _).2 (by simp)

/-- Witness of `surplus_positionals_ignored` at `rm h x -n`. -/
theorem surplus_positionals_ignored_witness :
    wrappedMain demoEnv ["hostess"] (["hostess", "rm", "h"] ++ ["x", "-n"])
      = wrappedMain demoEnv ["hostess"] ["hostess", "rm", "h"] :=
  ((surplus_positionals_ignored demoEnv ["hostess"] "hostess" "h" ["x", "-n"]
    (by decide) (by decide)).1 ("rm", .Remove) (by simp [Spec.oneArgCommands])).1

/-- C10: `wrappedMain` indexes `args` out of range on the empty argument
list only, at `args[0]`; `args[2:]` is never out of range, because on a
one-element list `Usage` has ended the process before; and when `os.Args`
is not empty either, a run on a non-empty argument list does not panic. -/
theorem wrappedMain_index_safety (env : Env) (osArgs args : List String) :
    ((wrappedMain env osArgs args).step = .panic .argsIndex0 ↔ args = []) ∧
    (wrappedMain env osArgs args).step ≠ .panic .argsSlice2 ∧
    (args.length = 1 → (wrappedMain env osArgs args).step = .exit 0) ∧
    (osArgs ≠ [] → args ≠ [] → ∀ site, (wrappedMain env osArgs args).step ≠ .panic site) := by
  rcases args with _ | ⟨prog, _ | ⟨cmd, rest⟩⟩
  · simp [wrappedMain_nil]
  · simp [wrappedMain_single]
  · rcases wrappedMain_shape env osArgs prog cmd rest
      with hw | ⟨tr, hw, _⟩ | ⟨c, _, hw⟩ | ⟨e, hw⟩ | ⟨ho, hw⟩
    · rw [hw]; simp
    · rw [hw]; simp
    · rw [hw]; simp [CoreEnd.step_ne_panic]
    · rw [hw]; simp
    · rw [hw]; simp [ho]

end Hostess
